import Mathlib

/-!
Verification development for the `httpcore` synchronous connection pool
(`httpcore/_sync/connection_pool.py`) and its HTTP-proxy variant
(`httpcore/_sync/http_proxy.py`).

Modelling conventions:
* Python object identity of connection handles is modelled by a numeric
  `id` field; Python `set` membership (which is identity based) becomes
  membership by `id`.
* The origin-keyed dictionary `self._connections` becomes an association
  list `List (Origin × List Conn)`; dictionary assignment to an existing
  key updates the entry in place, `del` removes it, and a fresh key is
  appended (insertion order, as in CPython dicts).
* The concurrency-backend semaphore is external; the pool only calls
  `acquire`/`release` on it, so we record the number of `acquire` and
  `release` calls in the pool state.  A blocked `acquire` on a full,
  bounded semaphore is modelled as the `PoolTimeout` outcome.
* Monotonic time is ℚ.
* The connection handle (`SyncHTTPConnection`) is an external collaborator;
  its observable contract (state enum, `mark_as_ready`, `close`,
  `is_socket_readable`, `expires_at`) is modelled from the spec, and its
  `request` method is an oracle parameter.
-/

/-- Connection lifecycle states, from `httpcore/_sync/base.py` via the spec
(§3): PENDING, ACTIVE, READY (called FULL in some versions), IDLE, CLOSED. -/
inductive ConnectionState where
  | PENDING
  | ACTIVE
  | READY
  | IDLE
  | CLOSED
deriving DecidableEq, Repr

/-- Origin key `(scheme, host, port)`. -/
abbrev Origin := String × String × Nat

/-- URL tuple `(scheme, host, port | none, path)`. -/
structure URL where
  scheme : String
  host : String
  port : Option Nat
  path : String
deriving DecidableEq, Repr

/-- A connection handle.  `id` models Python object identity;
`socketReadable` is the (momentary) result of `is_socket_readable()`. -/
structure Conn where
  id : Nat
  origin : Origin
  state : ConnectionState
  is_http11 : Bool
  is_http2 : Bool
  expires_at : Option ℚ
  socketReadable : Bool
deriving DecidableEq, Repr

/-- Modelled from the spec: `mark_as_ready()` performs the IDLE→READY
transition on the handle (§3, §4.2). -/
def markAsReady (c : Conn) : Conn :=
  if c.state = ConnectionState.IDLE then { c with state := ConnectionState.READY } else c

/-- Modelled from the spec: `close()` is terminal and sets the state to
CLOSED (§3). -/
def closeConn (c : Conn) : Conn :=
  { c with state := ConnectionState.CLOSED }

/-- Modelled from the spec: a freshly constructed `SyncHTTPConnection`
for an origin is PENDING, has no negotiated protocol yet, no expiry,
and no readable socket (§3 lifecycle). -/
def newConnection (id : Nat) (origin : Origin) : Conn :=
  { id := id, origin := origin, state := ConnectionState.PENDING,
    is_http11 := false, is_http2 := false, expires_at := none,
    socketReadable := false }

/-- Bucket lookup: `self._connections.get(origin, set())`. -/
def bucketFor : List (Origin × List Conn) → Origin → List Conn
  | [], _ => []
  | kv :: rest, o => if kv.1 = o then kv.2 else bucketFor rest o

/-- Key membership in the origin map. -/
def hasKey : List (Origin × List Conn) → Origin → Bool
  | [], _ => false
  | kv :: rest, o => decide (kv.1 = o) || hasKey rest o

/-- Dictionary assignment to an existing key: replace the bucket in place. -/
def setKey : List (Origin × List Conn) → Origin → List Conn → List (Origin × List Conn)
  | [], _, _ => []
  | kv :: rest, o, b => if kv.1 = o then (o, b) :: setKey rest o b else kv :: setKey rest o b

/-- Source `del self._connections[origin]`. -/
def eraseKey : List (Origin × List Conn) → Origin → List (Origin × List Conn)
  | [], _ => []
  | kv :: rest, o => if kv.1 = o then eraseKey rest o else kv :: eraseKey rest o

/-- Identity-based membership of a connection id in a bucket
(Python `connection in set`). -/
def connIn (b : List Conn) (i : Nat) : Bool :=
  b.any (fun x => decide (x.id = i))

/-- Identity-based removal from a bucket (Python `set.remove`). -/
def removeConn (b : List Conn) (i : Nat) : List Conn :=
  b.filter (fun x => decide (x.id ≠ i))

/-- The pool state of `SyncConnectionPool`.  `semAcquires`/`semReleases`
count the calls made to the connection semaphore. -/
structure Pool where
  connections : List (Origin × List Conn)
  semAcquires : Nat
  semReleases : Nat
  maxConnections : Option Nat
  maxKeepaliveConnections : Option Nat
  keepaliveExpiry : Option ℚ
  http2 : Bool
  nextKeepaliveCheck : ℚ
deriving DecidableEq, Repr

/-- Source `_get_all_connections`: union of all buckets. -/
def getAllConnections (p : Pool) : List Conn :=
  (p.connections.map (fun kv => kv.2)).flatten

/-- The ids of all pooled connections. -/
def poolIds (p : Pool) : List Nat :=
  (getAllConnections p).map Conn.id

/-- Is this handle currently a member of the pool (by identity)? -/
def memPool (p : Pool) (c : Conn) : Bool :=
  connIn (bucketFor p.connections c.origin) c.id

/-- Source `_remove_from_pool`: under the thread lock, iff the connection is in its
origin's set, release the semaphore, remove it, and delete the bucket when
it becomes empty. -/
def removeFromPool (p : Pool) (connection : Conn) : Pool :=
  let bucket := bucketFor p.connections connection.origin
  if connIn bucket connection.id then
    let bucket' := removeConn bucket connection.id
    { p with
      semReleases := p.semReleases + 1,
      connections :=
        if bucket' = [] then eraseKey p.connections connection.origin
        else setKey p.connections connection.origin bucket' }
  else p

/-- In-place mutation of a handle that is (possibly) referenced from the
pool: every pooled record with the same identity is replaced by the new
record. -/
def updateConn (p : Pool) (c : Conn) : Pool :=
  { p with connections :=
      p.connections.map (fun kv => (kv.1, kv.2.map (fun x => if x.id = c.id then c else x))) }

/-- Python exception values, as far as the proxy code observes them:
`ProxyError(arg)`, an exception constructed from a message string, or an
opaque exception coming from a collaborator. -/
inductive PyExc where
  | proxyError (arg : PyExc)
  | str (s : String)
  | external (tag : String)
deriving DecidableEq, Repr

/-- The error outcomes a pool or proxy request can produce:
`UnsupportedProtocol`, `LocalProtocolError`, `PoolTimeout` (a bounded
semaphore already at capacity), an uncaught `NewConnectionRequired`, any
other exception from `connection.request`, a raised
`ProxyError(arg)`, or exhaustion of the loop fuel (a modelling artifact
for the unbounded Python `while`). -/
inductive PoolError where
  | unsupportedProtocol (scheme : String)
  | localProtocolError (msg : String)
  | poolTimeout
  | newConnectionRequired
  | connectionFailure (tag : String)
  | proxyError (arg : PyExc)
  | outOfFuel
deriving DecidableEq, Repr

/-- Source `str()` of a Python exception: a single-argument exception renders as
the `str` of its argument. -/
def excMessage : PyExc → String
  | PyExc.proxyError a => excMessage a
  | PyExc.str s => s
  | PyExc.external t => t

/-- The semaphore-acquire step of `_add_to_pool`. -/
def semaphoreAcquire (p : Pool) : Except PoolError Pool :=
  match p.maxConnections with
  | none => Except.ok { p with semAcquires := p.semAcquires + 1 }
  | some m =>
    if p.semAcquires - p.semReleases < m then
      Except.ok { p with semAcquires := p.semAcquires + 1 }
    else Except.error PoolError.poolTimeout

/-- Source `_add_to_pool`: acquire the semaphore, then
`setdefault(origin, set()).add(connection)`. -/
def addToPool (p : Pool) (connection : Conn) : Except PoolError Pool :=
  (semaphoreAcquire p).map (fun p1 =>
    let b := bucketFor p1.connections connection.origin
    let b' := if connIn b connection.id then b else b ++ [connection]
    { p1 with connections :=
        if hasKey p1.connections connection.origin then
          setKey p1.connections connection.origin b'
        else p1.connections ++ [(connection.origin, [connection])] })

/-- Does `_response_closed` evict an IDLE connection?  Source condition:
`max_keepalive_connections is not None and num_connections > max`. -/
def keepaliveEvict (p : Pool) : Bool :=
  match p.maxKeepaliveConnections with
  | some m => decide ((getAllConnections p).length > m)
  | none => false

/-- Source `_response_closed(connection)`: returns the new pool and the final
value of the (possibly mutated or closed) connection handle. -/
def responseClosed (p : Pool) (now : ℚ) (connection : Conn) : Pool × Conn :=
  if connection.state = ConnectionState.CLOSED then
    (removeFromPool p connection, connection)
  else if connection.state = ConnectionState.IDLE then
    if keepaliveEvict p then
      (removeFromPool p connection, closeConn connection)
    else
      match p.keepaliveExpiry with
      | some expiry =>
        let c' := { connection with expires_at := some (now + expiry) }
        (updateConn p c', c')
      | none => (p, connection)
  else (p, connection)

/-- The expiry test of `_keepalive_sweep`:
`state == IDLE and expires_at is not None and now >= expires_at`. -/
def sweepExpired (now : ℚ) (c : Conn) : Bool :=
  decide (c.state = ConnectionState.IDLE) &&
    (match c.expires_at with
     | some e => decide (e ≤ now)
     | none => false)

/-- Source `_keepalive_sweep()`: returns the new pool and the list of connections
that were closed (closures happen after all removals). -/
def keepaliveSweep (p : Pool) (now : ℚ) : Pool × List Conn :=
  match p.keepaliveExpiry with
  | none => (p, [])
  | some expiry =>
    if now < p.nextKeepaliveCheck then (p, [])
    else
      let p1 := { p with nextKeepaliveCheck := now + min 1 expiry }
      let expired := (getAllConnections p1).filter (sweepExpired now)
      (expired.foldl removeFromPool p1, expired.map closeConn)

/-- Loop state of the scan in `_get_connection_from_pool`. -/
structure ScanState where
  seen_http11 : Bool
  pending_connection : Option Conn
  reuse_connection : Option Conn
  toClose : List Conn
  pool : Pool
deriving Repr

/-- One iteration of the scan over `self._connections_for_origin(origin)`. -/
def scanStep (s : ScanState) (connection : Conn) : ScanState :=
  let s1 := if connection.is_http11 then { s with seen_http11 := true } else s
  if connection.state = ConnectionState.IDLE then
    if connection.socketReadable then
      { s1 with toClose := s1.toClose ++ [connection],
                pool := removeFromPool s1.pool connection }
    else
      { s1 with reuse_connection := some connection }
  else if connection.state = ConnectionState.ACTIVE ∧ connection.is_http2 = true then
    { s1 with reuse_connection := some connection }
  else if connection.state = ConnectionState.PENDING then
    { s1 with pending_connection := some connection }
  else s1

/-- The scan state at the start of `_get_connection_from_pool`. -/
def initialScanState (p : Pool) : ScanState :=
  { seen_http11 := false, pending_connection := none, reuse_connection := none,
    toClose := [], pool := p }

/-- The post-scan step of `_get_connection_from_pool`: mark a reuse
candidate as READY and clear its expiry, else fall back to a PENDING
connection when HTTP/2 is enabled and no HTTP/1.1 connection was seen;
dead connections have been removed during the scan and are closed last. -/
def scanFinish (p : Pool) (s : ScanState) : Pool × Option Conn × List Conn :=
  match s.reuse_connection with
  | some ru =>
    let ru' := { markAsReady ru with expires_at := none }
    (updateConn s.pool ru', some ru', s.toClose.map closeConn)
  | none =>
    if p.http2 && s.pending_connection.isSome && !s.seen_http11 then
      (s.pool, s.pending_connection, s.toClose.map closeConn)
    else
      (s.pool, none, s.toClose.map closeConn)

/-- Source `_get_connection_from_pool(origin)`: returns the new pool, the reused
connection (if any), and the dropped-and-closed dead connections. -/
def getConnectionFromPool (p : Pool) (origin : Origin) : Pool × Option Conn × List Conn :=
  scanFinish p ((bucketFor p.connections origin).foldl scanStep (initialScanState p))

/-- A connection that the scan treats as reusable: IDLE with a
non-readable socket, or ACTIVE HTTP/2. -/
def isReuseCandidate (c : Conn) : Bool :=
  (decide (c.state = ConnectionState.IDLE) && !c.socketReadable) ||
    (decide (c.state = ConnectionState.ACTIVE) && c.is_http2)

/-- The test that sends a connection to `connections_to_close` during the
scan: IDLE with a readable socket (a dropped peer). -/
def isDeadIdle (c : Conn) : Bool :=
  decide (c.state = ConnectionState.IDLE) && c.socketReadable

/-- Invariant of the scan loop of `_get_connection_from_pool` after
processing the prefix `l` of the origin's bucket. -/
def ScanInv (l : List Conn) (s : ScanState) : Prop :=
  (s.seen_http11 = l.any (fun c => c.is_http11))
  ∧ ((s.reuse_connection = none ∧ ∀ c ∈ l, isReuseCandidate c = false)
     ∨ (∃ c ∈ l, isReuseCandidate c = true ∧ s.reuse_connection = some c))
  ∧ (s.pending_connection = none → ∀ c ∈ l, c.state ≠ ConnectionState.PENDING)
  ∧ (∀ c, s.pending_connection = some c → c ∈ l ∧ c.state = ConnectionState.PENDING)
  ∧ (s.toClose = l.filter isDeadIdle)
  ∧ (∀ c ∈ l, isDeadIdle c = true → memPool s.pool c = false)

/-- Trace events used to record the order of operations in `close()`. -/
inductive PoolEvent where
  | removed (id : Nat)
  | closed (id : Nat)
deriving DecidableEq, Repr

/-- Pool `close()`: snapshot all connections, remove each from the pool,
then close each.  Returns the new pool, the closed handles, and the event
trace (all removals precede all closes). -/
def closePool (p : Pool) : Pool × List Conn × List PoolEvent :=
  let conns := getAllConnections p
  (conns.foldl removeFromPool p,
   conns.map closeConn,
   conns.map (fun c => PoolEvent.removed c.id) ++ conns.map (fun c => PoolEvent.closed c.id))

/-- Well-formedness invariants of the pool map (spec §3 I1–I5): bucket keys
match the origins of their members, keys are unique, no empty bucket is
kept, and handle identities are unique across the pool. -/
def WFPool (p : Pool) : Prop :=
  (∀ kv ∈ p.connections, ∀ c ∈ kv.2, c.origin = kv.1)
  ∧ (p.connections.map (fun kv => kv.1)).Nodup
  ∧ (∀ kv ∈ p.connections, kv.2 ≠ ([] : List Conn))
  ∧ ((getAllConnections p).map Conn.id).Nodup

/-- Modelled from the spec: `url_to_origin` (in `httpcore/_utils.py`, not
part of the packaged sources) maps a URL tuple to its origin, defaulting
the port from the scheme (http→80, https→443; spec §3 and scenario 6). -/
def url_to_origin (url : URL) : Origin :=
  (url.scheme, url.host,
   match url.port with
   | some port => port
   | none => if url.scheme = "https" then 443 else 80)

/-- Outcome of one `connection.request(...)` call, as observed by the pool:
a response status, the `NewConnectionRequired` signal, or any other
exception. -/
inductive ConnResult where
  | success (status : Nat)
  | newConnectionRequired
  | failure (tag : String)
deriving DecidableEq, Repr

/-- The `while connection is None` loop of `SyncConnectionPool.request`,
with explicit fuel (the Python loop is unbounded) and an oracle giving the
outcome of the k-th `connection.request` call.  Errors carry the pool
state at raise time. -/
def requestLoop (orc : Nat → ConnResult) (origin : Origin) (freshIdBase : Nat) :
    Nat → Nat → Pool → Except (PoolError × Pool) (Pool × Conn × Nat)
  | 0, _, p => Except.error (PoolError.outOfFuel, p)
  | Nat.succ fuel, k, p =>
    let g := getConnectionFromPool p origin
    let p1 := g.1
    let acquired : Except PoolError (Pool × Conn) :=
      match g.2.1 with
      | some c => Except.ok (p1, c)
      | none =>
        let c := newConnection (freshIdBase + k) origin
        (addToPool p1 c).map (fun p2 => (p2, c))
    match acquired with
    | Except.error e => Except.error (e, p1)
    | Except.ok (p2, c) =>
      match orc k with
      | ConnResult.success status => Except.ok (p2, c, status)
      | ConnResult.newConnectionRequired => requestLoop orc origin freshIdBase fuel (k + 1) p2
      | ConnResult.failure t => Except.error (PoolError.connectionFailure t, removeFromPool p2 c)

/-- Source `SyncConnectionPool.request`: URL validation, keep-alive sweep, then
the acquisition loop. -/
def poolRequest (p : Pool) (now : ℚ) (url : URL) (orc : Nat → ConnResult)
    (freshIdBase fuel : Nat) : Except (PoolError × Pool) (Pool × Conn × Nat) :=
  if url.scheme ≠ "http" ∧ url.scheme ≠ "https" then
    Except.error (PoolError.unsupportedProtocol url.scheme, p)
  else if url.host = "" then
    Except.error (PoolError.localProtocolError "Missing hostname in URL.", p)
  else
    let origin := url_to_origin url
    let p1 := (keepaliveSweep p now).1
    requestLoop orc origin freshIdBase fuel 0 p1

/-- ASCII lower-casing, modelling Python `bytes.lower()`. -/
def bytesLower (s : String) : String :=
  String.map (fun ch => if 'A' ≤ ch ∧ ch ≤ 'Z' then Char.ofNat (ch.toNat + 32) else ch) s

/-- Source `merge_headers(default_headers, override_headers)` from
`httpcore/_sync/http_proxy.py`. -/
def merge_headers (default_headers override_headers : List (String × String)) :
    List (String × String) :=
  let has_override := override_headers.map (fun kv => bytesLower kv.1)
  (default_headers.filter (fun kv => !(has_override.contains (bytesLower kv.1))))
    ++ override_headers

/-- Source `get_reason_phrase(status_code)`: the stdlib `HTTPStatus` phrase table
is external and passed as `phrase`; a `ValueError` (unknown status) yields
the empty string. -/
def get_reason_phrase (phrase : Nat → Option String) (status_code : Nat) : String :=
  (phrase status_code).getD ""

/-- Source `proxy_mode` values. -/
inductive ProxyMode where
  | DEFAULT
  | FORWARD_ONLY
  | TUNNEL_ONLY
deriving DecidableEq, Repr

/-- Proxy configuration of `SyncHTTPProxy`. -/
structure ProxyCfg where
  proxy_origin : Origin
  proxy_headers : List (String × String)
  proxy_mode : ProxyMode
deriving DecidableEq, Repr

/-- Which request path the proxy dispatches to. -/
inductive ProxyPath where
  | forward
  | tunnel
deriving DecidableEq, Repr

/-- The dispatch rule of `SyncHTTPProxy.request`. -/
def proxyDispatch (cfg : ProxyCfg) (url : URL) : ProxyPath :=
  if (cfg.proxy_mode = ProxyMode.DEFAULT ∧ url.scheme = "http")
      ∨ cfg.proxy_mode = ProxyMode.FORWARD_ONLY then
    ProxyPath.forward
  else ProxyPath.tunnel

/-- The absolute-form request target built by `_forward_request`. -/
def forwardTarget (url : URL) : String :=
  match url.port with
  | none => url.scheme ++ "://" ++ url.host ++ url.path
  | some port => url.scheme ++ "://" ++ url.host ++ ":" ++ toString port ++ url.path

/-- Outcome of the final `connection.request` on an established
connection; the proxy paths do not catch its exceptions. -/
def finalRequest (p : Pool) (connection : Conn) (r : ConnResult) :
    Except (PoolError × Pool) (Pool × Conn × Nat) :=
  match r with
  | ConnResult.success status => Except.ok (p, connection, status)
  | ConnResult.newConnectionRequired => Except.error (PoolError.newConnectionRequired, p)
  | ConnResult.failure tag => Except.error (PoolError.connectionFailure tag, p)

/-- Source `_forward_request`: pool the connection under the proxy origin, build
the absolute-form target, merge headers, and issue the request.  The
oracle receives the target and merged headers actually sent. -/
def forwardRequest (cfg : ProxyCfg) (p : Pool) (url : URL)
    (headers : List (String × String))
    (orc : String → List (String × String) → ConnResult) (freshId : Nat) :
    Except (PoolError × Pool) (Pool × Conn × Nat) :=
  let origin := cfg.proxy_origin
  let g := getConnectionFromPool p origin
  let p1 := g.1
  let acquired : Except PoolError (Pool × Conn) :=
    match g.2.1 with
    | some c => Except.ok (p1, c)
    | none =>
      let c := newConnection freshId origin
      (addToPool p1 c).map (fun p2 => (p2, c))
  match acquired with
  | Except.error e => Except.error (e, p1)
  | Except.ok (p2, c) =>
    finalRequest p2 c (orc (forwardTarget url) (merge_headers cfg.proxy_headers headers))

/-- The CONNECT request target `host:port` of `_tunnel_request`. -/
def tunnelConnectTarget (url : URL) : String :=
  (url_to_origin url).2.1 ++ ":" ++ toString (url_to_origin url).2.2

/-- The CONNECT request headers of `_tunnel_request`. -/
def tunnelConnectHeaders (cfg : ProxyCfg) (url : URL) : List (String × String) :=
  merge_headers [("Host", tunnelConnectTarget url), ("Accept", "*/*")] cfg.proxy_headers

/-- Oracles for the external effects of `_tunnel_request`: the CONNECT
request (including the body drain) on the auxiliary proxy connection, the
`HTTPStatus` phrase table, the TLS upgrade, and the final request. -/
structure TunnelOracle where
  connect : String → List (String × String) → Except PyExc Nat
  phrase : Nat → Option String
  tls : Except PyExc Unit
  req : ConnResult

instance {ε α : Type} [DecidableEq ε] [DecidableEq α] : DecidableEq (Except ε α) := fun a b =>
  match a, b with
  | Except.ok x, Except.ok y =>
    if h : x = y then Decidable.isTrue (by rw [h]) else
      Decidable.isFalse (by intro hc; injection hc; contradiction)
  | Except.error x, Except.error y =>
    if h : x = y then Decidable.isTrue (by rw [h]) else
      Decidable.isFalse (by intro hc; injection hc; contradiction)
  | Except.ok _, Except.error _ => Decidable.isFalse (by intro hc; injection hc)
  | Except.error _, Except.ok _ => Decidable.isFalse (by intro hc; injection hc)

/-- Result of `_tunnel_request`, recording whether the auxiliary proxy
connection was closed. -/
structure TunnelResult where
  result : Except (PoolError × Pool) (Pool × Conn × Nat)
  auxClosed : Bool
deriving DecidableEq, Repr

/-- The `try` block of `_tunnel_request` for an absent pooled connection:
the CONNECT request on the auxiliary connection (including the body
drain), the `[200, 299]` status check raising `ProxyError("<status>
<reason>")`, and the TLS upgrade for https targets.  Produces the
exception that escapes the `try` block, if any. -/
def tunnelHandshake (cfg : ProxyCfg) (url : URL) (orc : TunnelOracle) :
    Except PyExc Unit :=
  match orc.connect (tunnelConnectTarget url) (tunnelConnectHeaders cfg url) with
  | Except.error exc => Except.error exc
  | Except.ok proxy_status_code =>
    if proxy_status_code < 200 ∨ proxy_status_code > 299 then
      Except.error (PyExc.proxyError (PyExc.str
        (toString proxy_status_code ++ " "
          ++ get_reason_phrase orc.phrase proxy_status_code)))
    else if (url_to_origin url).1 = "https" then orc.tls
    else Except.ok ()

/-- Source `_tunnel_request`: reuse a pooled connection for the target origin, or
run the CONNECT handshake on a transient auxiliary connection to the
proxy, upgrade to TLS for https, and pool a fresh handle inheriting the
tunnelled socket.  A handshake exception closes the auxiliary connection
and is wrapped in `ProxyError`. -/
def tunnelRequest (cfg : ProxyCfg) (p : Pool) (url : URL) (orc : TunnelOracle)
    (freshId : Nat) : TunnelResult :=
  let origin := url_to_origin url
  let g := getConnectionFromPool p origin
  let p1 := g.1
  match g.2.1 with
  | some connection =>
    { result := finalRequest p1 connection orc.req, auxClosed := false }
  | none =>
    match tunnelHandshake cfg url orc with
    | Except.error exc =>
      { result := Except.error (PoolError.proxyError exc, p1), auxClosed := true }
    | Except.ok _ =>
      let connection := newConnection freshId origin
      match addToPool p1 connection with
      | Except.error e => { result := Except.error (e, p1), auxClosed := false }
      | Except.ok p2 =>
        { result := finalRequest p2 connection orc.req, auxClosed := false }

/-- The oracles consumed by `SyncHTTPProxy.request`. -/
structure ProxyOracles where
  forwardReq : String → List (String × String) → ConnResult
  tunnel : TunnelOracle

/-- Source `SyncHTTPProxy.request`: optional keep-alive sweep, then dispatch to
the forward or tunnel path.  No URL validation is performed. -/
def proxyRequest (cfg : ProxyCfg) (p : Pool) (now : ℚ) (url : URL)
    (headers : List (String × String)) (orc : ProxyOracles) (freshId : Nat) :
    ProxyPath × Except (PoolError × Pool) (Pool × Conn × Nat) :=
  let p0 := if p.keepaliveExpiry.isSome then (keepaliveSweep p now).1 else p
  if (cfg.proxy_mode = ProxyMode.DEFAULT ∧ url.scheme = "http")
      ∨ cfg.proxy_mode = ProxyMode.FORWARD_ONLY then
    (ProxyPath.forward, forwardRequest cfg p0 url headers orc.forwardReq freshId)
  else
    (ProxyPath.tunnel, (tunnelRequest cfg p0 url orc.tunnel freshId).result)

/-- The validation errors that `SyncConnectionPool.request` raises and
`SyncHTTPProxy.request` never does. -/
def isValidationError : PoolError → Bool
  | PoolError.unsupportedProtocol _ => true
  | PoolError.localProtocolError _ => true
  | _ => false

/-! Concrete example values used by the witness theorems. -/

def exOrigin : Origin := ("http", "a.test", 80)

def exConnIdle : Conn :=
  { id := 1, origin := exOrigin, state := ConnectionState.IDLE,
    is_http11 := true, is_http2 := false, expires_at := none,
    socketReadable := false }

def exPool : Pool :=
  { connections := [(exOrigin, [exConnIdle])], semAcquires := 1, semReleases := 0,
    maxConnections := some 10, maxKeepaliveConnections := none,
    keepaliveExpiry := none, http2 := false, nextKeepaliveCheck := 0 }

def exPoolEmpty : Pool :=
  { connections := [], semAcquires := 0, semReleases := 0,
    maxConnections := none, maxKeepaliveConnections := none,
    keepaliveExpiry := none, http2 := false, nextKeepaliveCheck := 0 }

def exConnClosed : Conn :=
  { exConnIdle with id := 2, state := ConnectionState.CLOSED }

def exPoolMK : Pool :=
  { exPool with maxKeepaliveConnections := some 0 }

def exConnExpired : Conn :=
  { exConnIdle with expires_at := some 3 }

def exConnDead : Conn :=
  { exConnIdle with id := 3, socketReadable := true }

def exPoolDead : Pool :=
  { exPool with connections := [(exOrigin, [exConnDead])] }

def exUrlFtp : URL :=
  { scheme := "ftp", host := "a.test", port := none, path := "/" }

def exUrlHttps : URL :=
  { scheme := "https", host := "t.test", port := none, path := "/" }

def exProxyCfg : ProxyCfg :=
  { proxy_origin := ("http", "p.test", 8080), proxy_headers := [],
    proxy_mode := ProxyMode.TUNNEL_ONLY }

def exTunnelOracleFail : TunnelOracle :=
  { connect := fun _ _ => Except.error (PyExc.external "boom"),
    phrase := fun _ => none,
    tls := Except.ok (),
    req := ConnResult.success 200 }

def exProxyOracles : ProxyOracles :=
  { forwardReq := fun _ _ => ConnResult.failure "io-error",
    tunnel := exTunnelOracleFail }

def exPoolKE : Pool :=
  { connections := [(exOrigin, [exConnExpired])], semAcquires := 1, semReleases := 0,
    maxConnections := none, maxKeepaliveConnections := none,
    keepaliveExpiry := some 5, http2 := false, nextKeepaliveCheck := 0 }

/-! Helper lemmas about the origin-map operations. -/

theorem bucketFor_eraseKey_self (m : List (Origin × List Conn)) (o : Origin) :
    bucketFor (eraseKey m o) o = [] := by
  induction m with
  | nil => rfl
  | cons kv rest ih =>
    by_cases h : kv.1 = o
    · simpa [eraseKey, h] using ih
    · simpa [eraseKey, bucketFor, h] using ih

theorem bucketFor_eraseKey_ne (m : List (Origin × List Conn)) (o o' : Origin)
    (h : o' ≠ o) : bucketFor (eraseKey m o) o' = bucketFor m o' := by
  induction m with
  | nil => rfl
  | cons kv rest ih =>
    by_cases hk : kv.1 = o
    · have h2 : o ≠ o' := fun he => h he.symm
      simp [eraseKey, bucketFor, hk, h2, ih]
    · by_cases hk' : kv.1 = o'
      · simp [eraseKey, bucketFor, hk, hk', h]
      · simp [eraseKey, bucketFor, hk, hk', ih]

theorem mem_eraseKey (m : List (Origin × List Conn)) (o : Origin) :
    ∀ kv ∈ eraseKey m o, kv.1 ≠ o := by
  induction m with
  | nil => intro kv hkv; cases hkv
  | cons hd rest ih =>
    intro kv hkv
    by_cases h : hd.1 = o
    · exact ih kv (by simpa [eraseKey, h] using hkv)
    · rw [eraseKey] at hkv
      simp only [if_neg h, List.mem_cons] at hkv
      cases hkv with
      | inl he => exact he ▸ h
      | inr ht => exact ih kv ht

theorem bucketFor_setKey_self (m : List (Origin × List Conn)) (o : Origin)
    (b : List Conn) (h : hasKey m o = true) :
    bucketFor (setKey m o b) o = b := by
  induction m with
  | nil => cases h
  | cons kv rest ih =>
    by_cases hk : kv.1 = o
    · simp [setKey, bucketFor, hk]
    · have hrest : hasKey rest o = true := by
        have := h
        rw [hasKey] at this
        simpa [hk] using this
      simp [setKey, bucketFor, hk, ih hrest]

theorem bucketFor_setKey_ne (m : List (Origin × List Conn)) (o o' : Origin)
    (b : List Conn) (h : o' ≠ o) :
    bucketFor (setKey m o b) o' = bucketFor m o' := by
  induction m with
  | nil => rfl
  | cons kv rest ih =>
    by_cases hk : kv.1 = o
    · have : o ≠ o' := fun he => h he.symm
      simp [setKey, bucketFor, hk, this, ih, hk ▸ this]
    · by_cases hk' : kv.1 = o'
      · simp [setKey, bucketFor, hk, hk', h]
      · simp [setKey, bucketFor, hk, hk', ih]

theorem removeConn_cons (x : Conn) (rest : List Conn) (i : Nat) :
    removeConn (x :: rest) i
      = if x.id = i then removeConn rest i else x :: removeConn rest i := by
  by_cases hx : x.id = i
  · simp [removeConn, List.filter_cons, hx]
  · simp [removeConn, List.filter_cons, hx]

theorem connIn_cons (x : Conn) (rest : List Conn) (i : Nat) :
    connIn (x :: rest) i = (decide (x.id = i) || connIn rest i) := rfl

theorem connIn_removeConn_self (b : List Conn) (i : Nat) :
    connIn (removeConn b i) i = false := by
  induction b with
  | nil => rfl
  | cons x rest ih =>
    rw [removeConn_cons]
    by_cases h : x.id = i
    · rw [if_pos h]; exact ih
    · rw [if_neg h, connIn_cons, ih]
      simp [h]

theorem connIn_removeConn_false (b : List Conn) (i j : Nat)
    (h : connIn b j = false) : connIn (removeConn b i) j = false := by
  induction b with
  | nil => rfl
  | cons x rest ih =>
    rw [connIn_cons, Bool.or_eq_false_iff] at h
    rw [removeConn_cons]
    by_cases hx : x.id = i
    · rw [if_pos hx]; exact ih h.2
    · rw [if_neg hx, connIn_cons, h.1, ih h.2]
      rfl

theorem connIn_ne_nil (b : List Conn) (i : Nat) (h : connIn b i = true) :
    b ≠ [] := by
  intro hb
  rw [hb] at h
  cases h

theorem hasKey_of_bucketFor_ne (m : List (Origin × List Conn)) (o : Origin)
    (h : bucketFor m o ≠ []) : hasKey m o = true := by
  induction m with
  | nil => exact absurd rfl h
  | cons kv rest ih =>
    by_cases hk : kv.1 = o
    · simp [hasKey, hk]
    · rw [bucketFor, if_neg hk] at h
      simp [hasKey, hk, ih h]

/-! Lemmas about `removeFromPool`. -/

theorem removeFromPool_not_mem (p : Pool) (c : Conn) (h : memPool p c = false) :
    removeFromPool p c = p := by
  rw [removeFromPool]
  rw [memPool] at h
  simp [h]

theorem bucketFor_removeFromPool_self (p : Pool) (c : Conn)
    (h : memPool p c = true) :
    bucketFor (removeFromPool p c).connections c.origin
      = removeConn (bucketFor p.connections c.origin) c.id := by
  rw [memPool] at h
  rw [removeFromPool]
  simp only [h, if_true]
  by_cases hb : removeConn (bucketFor p.connections c.origin) c.id = []
  · simp only [hb, if_pos rfl]
    simpa [hb] using bucketFor_eraseKey_self p.connections c.origin
  · simp only [hb, if_neg hb]
    exact bucketFor_setKey_self _ _ _
      (hasKey_of_bucketFor_ne _ _ (connIn_ne_nil _ _ h))

theorem memPool_removeFromPool_self (p : Pool) (c : Conn) :
    memPool (removeFromPool p c) c = false := by
  by_cases h : memPool p c = true
  · rw [memPool, bucketFor_removeFromPool_self p c h]
    exact connIn_removeConn_self _ _
  · rw [removeFromPool_not_mem p c (by simpa using h)]
    simpa using h

theorem semReleases_removeFromPool (p : Pool) (c : Conn)
    (h : memPool p c = true) :
    (removeFromPool p c).semReleases = p.semReleases + 1 := by
  rw [memPool] at h
  rw [removeFromPool]
  simp [h]

theorem removeFromPool_idem (p : Pool) (c : Conn) :
    removeFromPool (removeFromPool p c) c = removeFromPool p c :=
  removeFromPool_not_mem _ _ (memPool_removeFromPool_self p c)

theorem memPool_removeFromPool_false (p : Pool) (c x : Conn)
    (h : memPool p x = false) : memPool (removeFromPool p c) x = false := by
  by_cases hc : memPool p c = true
  · rw [memPool] at h ⊢
    rw [removeFromPool]
    rw [memPool] at hc
    simp only [hc, if_true]
    by_cases hb : removeConn (bucketFor p.connections c.origin) c.id = []
    · rw [if_pos hb]
      by_cases ho : x.origin = c.origin
      · rw [ho, bucketFor_eraseKey_self]
        rfl
      · rw [bucketFor_eraseKey_ne _ _ _ ho]
        exact h
    · rw [if_neg hb]
      by_cases ho : x.origin = c.origin
      · rw [ho, bucketFor_setKey_self _ _ _
          (hasKey_of_bucketFor_ne _ _ (connIn_ne_nil _ _ hc))]
        exact connIn_removeConn_false _ _ _ (ho ▸ h)
      · rw [bucketFor_setKey_ne _ _ _ _ ho]
        exact h
  · rw [removeFromPool_not_mem p c (by simpa using hc)]
    exact h

/-- C1: `_remove_from_pool(c)` releases the semaphore and removes `c` from
its origin's set if and only if `c` is currently present in that set
(otherwise it is a no-op), deletes the origin bucket when it becomes
empty, and calling it twice equals calling it once. -/
theorem removeFromPool_spec (p : Pool) (c : Conn) :
    (memPool p c = false → removeFromPool p c = p)
    ∧ (memPool p c = true →
        (removeFromPool p c).semReleases = p.semReleases + 1
        ∧ memPool (removeFromPool p c) c = false
        ∧ bucketFor (removeFromPool p c).connections c.origin
            = removeConn (bucketFor p.connections c.origin) c.id
        ∧ (removeConn (bucketFor p.connections c.origin) c.id = [] →
            ∀ kv ∈ (removeFromPool p c).connections, kv.1 ≠ c.origin))
    ∧ removeFromPool (removeFromPool p c) c = removeFromPool p c := by
  refine ⟨removeFromPool_not_mem p c, ?_, removeFromPool_idem p c⟩
  intro h
  refine ⟨semReleases_removeFromPool p c h, memPool_removeFromPool_self p c,
    bucketFor_removeFromPool_self p c h, ?_⟩
  intro hb
  rw [memPool] at h
  rw [removeFromPool]
  simp only [h, if_true, hb, if_pos rfl]
  exact mem_eraseKey p.connections c.origin

/-- Witness for C1 at a concrete pool: the connection is present, the
semaphore is released, the connection is gone afterwards, and a second
call is a no-op. -/
theorem removeFromPool_spec_witness :
    (removeFromPool exPool exConnIdle).semReleases = exPool.semReleases + 1
    ∧ memPool (removeFromPool exPool exConnIdle) exConnIdle = false
    ∧ removeFromPool (removeFromPool exPool exConnIdle) exConnIdle
        = removeFromPool exPool exConnIdle := by
  have h := removeFromPool_spec exPool exConnIdle
  exact ⟨(h.2.1 (by decide)).1, (h.2.1 (by decide)).2.1, h.2.2⟩

/-! Lemmas about `updateConn`. -/

theorem getAllConnections_updateConn (p : Pool) (c : Conn) :
    getAllConnections (updateConn p c)
      = (getAllConnections p).map (fun x => if x.id = c.id then c else x) := by
  rw [updateConn, getAllConnections, getAllConnections]
  simp only [List.map_map, List.map_flatten]
  rfl

theorem poolIds_updateConn (p : Pool) (c : Conn) :
    poolIds (updateConn p c) = poolIds p := by
  rw [poolIds, poolIds, getAllConnections_updateConn, List.map_map]
  congr 1
  funext x
  by_cases h : x.id = c.id
  · simp [Function.comp, h]
  · simp [Function.comp, h]

/-- C2: `_response_closed(c)`. A CLOSED connection is removed from the
pool; an IDLE connection is removed and closed when
`max_keepalive_connections` is set and the total pooled count (over all
states) strictly exceeds it; otherwise, when `keepalive_expiry` is set,
an IDLE connection gets `expires_at = now + keepalive_expiry` and pool
membership is unchanged. -/
theorem responseClosed_spec (p : Pool) (now : ℚ) (c : Conn) :
    (c.state = ConnectionState.CLOSED →
        responseClosed p now c = (removeFromPool p c, c))
    ∧ (∀ m, c.state = ConnectionState.IDLE →
        p.maxKeepaliveConnections = some m →
        (getAllConnections p).length > m →
        responseClosed p now c = (removeFromPool p c, closeConn c))
    ∧ (∀ e, c.state = ConnectionState.IDLE →
        keepaliveEvict p = false →
        p.keepaliveExpiry = some e →
        (responseClosed p now c).2.expires_at = some (now + e)
        ∧ poolIds (responseClosed p now c).1 = poolIds p) := by
  refine ⟨?_, ?_, ?_⟩
  · intro h
    simp [responseClosed, h]
  · intro m hs hm hgt
    have hev : keepaliveEvict p = true := by
      simp [keepaliveEvict, hm, hgt]
    simp [responseClosed, hs, hev]
  · intro e hs hev he
    have : responseClosed p now c
        = (updateConn p { c with expires_at := some (now + e) },
           { c with expires_at := some (now + e) }) := by
      simp [responseClosed, hs, hev, he]
    rw [this]
    exact ⟨rfl, poolIds_updateConn p _⟩

/-- Witness for C2: with `max_keepalive_connections = 0` and one pooled
connection, closing a response on the IDLE connection removes and closes
it. -/
theorem responseClosed_spec_witness :
    responseClosed exPoolMK 0 exConnIdle
      = (removeFromPool exPoolMK exConnIdle, closeConn exConnIdle) :=
  (responseClosed_spec exPoolMK 0 exConnIdle).2.1 0 rfl rfl (by decide)

/-! Membership lemmas used by the sweeper and `close()` proofs. -/

theorem mem_getAllConnections_iff (p : Pool) (x : Conn) :
    x ∈ getAllConnections p ↔ ∃ kv ∈ p.connections, x ∈ kv.2 := by
  rw [getAllConnections, List.mem_flatten]
  constructor
  · rintro ⟨l, hl, hx⟩
    rcases List.mem_map.mp hl with ⟨kv, hkv, rfl⟩
    exact ⟨kv, hkv, hx⟩
  · rintro ⟨kv, hkv, hx⟩
    exact ⟨kv.2, List.mem_map_of_mem _ hkv, hx⟩

theorem bucketFor_of_mem (m : List (Origin × List Conn))
    (hk : (m.map (fun kv => kv.1)).Nodup) (kv : Origin × List Conn) (h : kv ∈ m) :
    bucketFor m kv.1 = kv.2 := by
  induction m with
  | nil => cases h
  | cons hd rest ih =>
    rw [List.map_cons, List.nodup_cons] at hk
    rcases List.mem_cons.mp h with he | ht
    · subst he; simp [bucketFor]
    · rw [bucketFor]
      have hne : hd.1 ≠ kv.1 := by
        intro hcontra
        exact hk.1 (hcontra ▸ List.mem_map_of_mem (fun kv => kv.1) ht)
      rw [if_neg hne]
      exact ih hk.2 ht

theorem removeConn_eq_nil (b : List Conn) (i : Nat) (h : removeConn b i = [])
    (x : Conn) (hx : x ∈ b) : x.id = i := by
  by_contra hne
  have hin : x ∈ removeConn b i := List.mem_filter.mpr ⟨hx, by simpa using hne⟩
  rw [h] at hin
  cases hin

theorem mem_removeConn_of_ne (b : List Conn) (i : Nat) (x : Conn)
    (hx : x ∈ b) (hne : x.id ≠ i) : x ∈ removeConn b i :=
  List.mem_filter.mpr ⟨hx, by simpa using hne⟩

theorem mem_eraseKey_of_ne (m : List (Origin × List Conn)) (o : Origin)
    (kv : Origin × List Conn) (h : kv ∈ m) (hne : kv.1 ≠ o) :
    kv ∈ eraseKey m o := by
  induction m with
  | nil => cases h
  | cons hd rest ih =>
    rw [eraseKey]
    rcases List.mem_cons.mp h with he | ht
    · subst he; rw [if_neg hne]; exact List.mem_cons_self _ _
    · by_cases hhd : hd.1 = o
      · rw [if_pos hhd]; exact ih ht
      · rw [if_neg hhd]; exact List.mem_cons_of_mem _ (ih ht)

theorem mem_setKey_of_ne (m : List (Origin × List Conn)) (o : Origin)
    (b : List Conn) (kv : Origin × List Conn) (h : kv ∈ m) (hne : kv.1 ≠ o) :
    kv ∈ setKey m o b := by
  induction m with
  | nil => cases h
  | cons hd rest ih =>
    rw [setKey]
    rcases List.mem_cons.mp h with he | ht
    · subst he; rw [if_neg hne]; exact List.mem_cons_self _ _
    · by_cases hhd : hd.1 = o
      · rw [if_pos hhd]; exact List.mem_cons_of_mem _ (ih ht)
      · rw [if_neg hhd]; exact List.mem_cons_of_mem _ (ih ht)

theorem mem_setKey_self (m : List (Origin × List Conn)) (o : Origin)
    (b : List Conn) (h : hasKey m o = true) : (o, b) ∈ setKey m o b := by
  induction m with
  | nil => cases h
  | cons hd rest ih =>
    rw [setKey]
    by_cases hhd : hd.1 = o
    · rw [if_pos hhd]; exact List.mem_cons_self _ _
    · rw [if_neg hhd]
      rw [hasKey] at h
      simp only [Bool.or_eq_true, decide_eq_true_eq] at h
      rcases h with he | ht
      · exact absurd he hhd
      · exact List.mem_cons_of_mem _ (ih ht)

theorem keys_setKey (m : List (Origin × List Conn)) (o : Origin) (b : List Conn) :
    (setKey m o b).map (fun kv => kv.1) = m.map (fun kv => kv.1) := by
  induction m with
  | nil => rfl
  | cons hd rest ih =>
    rw [setKey]
    by_cases hhd : hd.1 = o
    · rw [if_pos hhd, List.map_cons, List.map_cons, ih, hhd]
    · rw [if_neg hhd, List.map_cons, List.map_cons, ih]

theorem keys_eraseKey_sublist (m : List (Origin × List Conn)) (o : Origin) :
    ((eraseKey m o).map (fun kv => kv.1)).Sublist (m.map (fun kv => kv.1)) := by
  induction m with
  | nil => simp [eraseKey]
  | cons hd rest ih =>
    rw [eraseKey]
    by_cases hhd : hd.1 = o
    · rw [if_pos hhd, List.map_cons]
      exact ih.cons _
    · rw [if_neg hhd, List.map_cons, List.map_cons]
      exact ih.cons₂ _

theorem keysNodup_removeFromPool (q : Pool) (y : Conn)
    (h : (q.connections.map (fun kv => kv.1)).Nodup) :
    ((removeFromPool q y).connections.map (fun kv => kv.1)).Nodup := by
  rw [removeFromPool]
  by_cases hc : connIn (bucketFor q.connections y.origin) y.id
  · simp only [hc, if_true]
    by_cases hb : removeConn (bucketFor q.connections y.origin) y.id = []
    · rw [if_pos hb]
      exact h.sublist (keys_eraseKey_sublist _ _)
    · rw [if_neg hb]
      rw [keys_setKey]
      exact h
  · simp only [hc, Bool.false_eq_true, if_false]
    exact h

theorem mem_getAll_removeFromPool (q : Pool) (y x : Conn)
    (hkeys : (q.connections.map (fun kv => kv.1)).Nodup)
    (hx : x ∈ getAllConnections q) (hid : x.id ≠ y.id) :
    x ∈ getAllConnections (removeFromPool q y) := by
  rcases (mem_getAllConnections_iff q x).mp hx with ⟨kv, hkv, hxkv⟩
  rw [removeFromPool]
  by_cases hc : connIn (bucketFor q.connections y.origin) y.id
  · simp only [hc, if_true]
    rw [mem_getAllConnections_iff]
    by_cases hb : removeConn (bucketFor q.connections y.origin) y.id = []
    · rw [if_pos hb]
      by_cases ho : kv.1 = y.origin
      · exfalso
        have hbk : bucketFor q.connections y.origin = kv.2 := by
          rw [← ho]
          exact bucketFor_of_mem q.connections hkeys kv hkv
        rw [hbk] at hb
        exact hid (removeConn_eq_nil kv.2 y.id hb x hxkv)
      · exact ⟨kv, mem_eraseKey_of_ne q.connections y.origin kv hkv ho, hxkv⟩
    · rw [if_neg hb]
      by_cases ho : kv.1 = y.origin
      · have hbk : bucketFor q.connections y.origin = kv.2 := by
          rw [← ho]
          exact bucketFor_of_mem q.connections hkeys kv hkv
        refine ⟨(y.origin, removeConn (bucketFor q.connections y.origin) y.id), ?_, ?_⟩
        · exact mem_setKey_self q.connections y.origin _
            (hasKey_of_bucketFor_ne _ _ (connIn_ne_nil _ _ hc))
        · rw [hbk]
          exact mem_removeConn_of_ne kv.2 y.id x hxkv hid
      · exact ⟨kv, mem_setKey_of_ne q.connections y.origin _ kv hkv ho, hxkv⟩
  · simp only [hc, Bool.false_eq_true, if_false]
    exact hx

theorem memPool_foldl_remove_false (L : List Conn) (q : Pool) (c : Conn)
    (h : memPool q c = false) : memPool (L.foldl removeFromPool q) c = false := by
  induction L generalizing q with
  | nil => exact h
  | cons y rest ih =>
    rw [List.foldl_cons]
    exact ih _ (memPool_removeFromPool_false _ _ _ h)

theorem memPool_foldl_remove_mem (L : List Conn) (q : Pool) (c : Conn)
    (h : c ∈ L) : memPool (L.foldl removeFromPool q) c = false := by
  induction L generalizing q with
  | nil => cases h
  | cons y rest ih =>
    rw [List.foldl_cons]
    rcases List.mem_cons.mp h with he | ht
    · subst he
      exact memPool_foldl_remove_false rest _ _ (memPool_removeFromPool_self q c)
    · exact ih _ ht

theorem mem_getAll_foldl_remove (L : List Conn) (q : Pool) (x : Conn)
    (hkeys : (q.connections.map (fun kv => kv.1)).Nodup)
    (hx : x ∈ getAllConnections q) (hid : ∀ y ∈ L, x.id ≠ y.id) :
    x ∈ getAllConnections (L.foldl removeFromPool q) := by
  induction L generalizing q with
  | nil => exact hx
  | cons y rest ih =>
    rw [List.foldl_cons]
    exact ih (removeFromPool q y) (keysNodup_removeFromPool q y hkeys)
      (mem_getAll_removeFromPool q y x hkeys hx (hid y (List.mem_cons_self _ _)))
      (fun z hz => hid z (List.mem_cons_of_mem _ hz))

theorem nextCheck_removeFromPool (q : Pool) (c : Conn) :
    (removeFromPool q c).nextKeepaliveCheck = q.nextKeepaliveCheck := by
  rw [removeFromPool]
  by_cases h : connIn (bucketFor q.connections c.origin) c.id
  · simp [h]
  · simp [h]

theorem nextCheck_foldl_remove (L : List Conn) (q : Pool) :
    (L.foldl removeFromPool q).nextKeepaliveCheck = q.nextKeepaliveCheck := by
  induction L generalizing q with
  | nil => rfl
  | cons y rest ih =>
    rw [List.foldl_cons, ih, nextCheck_removeFromPool]

/-- C4: `_keepalive_sweep` is the identity when `keepalive_expiry` is unset
or `now < next_keepalive_check`; otherwise it sets
`next_keepalive_check = now + min(1.0, keepalive_expiry)`, removes and
closes every IDLE connection whose expiry time has passed, and leaves
every other connection in the pool untouched. -/
theorem keepaliveSweep_spec (p : Pool) (now : ℚ)
    (hkeys : (p.connections.map (fun kv => kv.1)).Nodup)
    (hids : ((getAllConnections p).map Conn.id).Nodup) :
    (p.keepaliveExpiry = none → keepaliveSweep p now = (p, []))
    ∧ (∀ e, p.keepaliveExpiry = some e → now < p.nextKeepaliveCheck →
        keepaliveSweep p now = (p, []))
    ∧ (∀ e, p.keepaliveExpiry = some e → ¬ now < p.nextKeepaliveCheck →
        (keepaliveSweep p now).1.nextKeepaliveCheck = now + min 1 e
        ∧ (∀ c ∈ getAllConnections p, c.state = ConnectionState.IDLE →
            ∀ t, c.expires_at = some t → t ≤ now →
              memPool (keepaliveSweep p now).1 c = false
              ∧ closeConn c ∈ (keepaliveSweep p now).2)
        ∧ (∀ c ∈ getAllConnections p, sweepExpired now c = false →
            c ∈ getAllConnections (keepaliveSweep p now).1)) := by
  refine ⟨?_, ?_, ?_⟩
  · intro h
    simp [keepaliveSweep, h]
  · intro e he hlt
    simp [keepaliveSweep, he, hlt]
  · intro e he hge
    have hsw : keepaliveSweep p now =
        (((getAllConnections p).filter (sweepExpired now)).foldl removeFromPool
            { p with nextKeepaliveCheck := now + min 1 e },
         ((getAllConnections p).filter (sweepExpired now)).map closeConn) := by
      simp only [keepaliveSweep, he]
      rw [if_neg hge]
      rfl
    refine ⟨?_, ?_, ?_⟩
    · rw [hsw]
      exact nextCheck_foldl_remove _ _
    · intro c hc hs t hexp hle
      have hcexp : sweepExpired now c = true := by
        simp [sweepExpired, hs, hexp, hle]
      have hmem : c ∈ (getAllConnections p).filter (sweepExpired now) :=
        List.mem_filter.mpr ⟨hc, hcexp⟩
      rw [hsw]
      exact ⟨memPool_foldl_remove_mem _ _ _ hmem, List.mem_map_of_mem closeConn hmem⟩
    · intro c hc hcexp
      rw [hsw]
      refine mem_getAll_foldl_remove _ _ _ hkeys hc ?_
      intro y hy hid
      rcases List.mem_filter.mp hy with ⟨hymem, hyexp⟩
      have : c = y := List.inj_on_of_nodup_map hids hc hymem hid
      rw [this, hyexp] at hcexp
      cases hcexp

/-- Witness for C4: a pool with `keepalive_expiry = 5` and one IDLE
connection expired at t=3 is swept at t=10. -/
theorem keepaliveSweep_spec_witness :
    (keepaliveSweep exPoolKE 10).1.nextKeepaliveCheck = 10 + min 1 5
    ∧ memPool (keepaliveSweep exPoolKE 10).1 exConnExpired = false
    ∧ closeConn exConnExpired ∈ (keepaliveSweep exPoolKE 10).2 := by
  have h := (keepaliveSweep_spec exPoolKE 10 (by decide) (by decide)).2.2 5 rfl (by decide)
  exact ⟨h.1, (h.2.1 exConnExpired (by decide) rfl 3 rfl (by decide)).1,
    (h.2.1 exConnExpired (by decide) rfl 3 rfl (by decide)).2⟩

/-! Lemmas for `closePool`. -/

theorem removeConn_eq_self (b : List Conn) (i : Nat) (h : ∀ x ∈ b, x.id ≠ i) :
    removeConn b i = b :=
  List.filter_eq_self.mpr (fun x hx => by simpa using h x hx)

theorem hasKey_iff_mem_keys (m : List (Origin × List Conn)) (o : Origin) :
    hasKey m o = true ↔ o ∈ m.map (fun kv => kv.1) := by
  induction m with
  | nil => simp [hasKey]
  | cons kv rest ih =>
    rw [hasKey, List.map_cons]
    simp only [Bool.or_eq_true, decide_eq_true_eq, List.mem_cons, ih]
    constructor
    · rintro (he | ht)
      · exact Or.inl he.symm
      · exact Or.inr ht
    · rintro (he | ht)
      · exact Or.inl he.symm
      · exact Or.inr ht

theorem eraseKey_of_not_hasKey (m : List (Origin × List Conn)) (o : Origin)
    (h : hasKey m o = false) : eraseKey m o = m := by
  induction m with
  | nil => rfl
  | cons kv rest ih =>
    rw [hasKey, Bool.or_eq_false_iff] at h
    rw [eraseKey, if_neg (by simpa using h.1), ih h.2]

theorem setKey_of_not_hasKey (m : List (Origin × List Conn)) (o : Origin)
    (b : List Conn) (h : hasKey m o = false) : setKey m o b = m := by
  induction m with
  | nil => rfl
  | cons kv rest ih =>
    rw [hasKey, Bool.or_eq_false_iff] at h
    rw [setKey, if_neg (by simpa using h.1), ih h.2]

theorem connections_eq_nil_of_getAll (p : Pool)
    (h3 : ∀ kv ∈ p.connections, kv.2 ≠ ([] : List Conn))
    (h : getAllConnections p = []) : p.connections = [] := by
  cases hp : p.connections with
  | nil => rfl
  | cons kv rest =>
    exfalso
    apply h3 kv (by rw [hp]; exact List.mem_cons_self _ _)
    have hfl : getAllConnections p = kv.2 ++ (rest.map (fun kv => kv.2)).flatten := by
      rw [getAllConnections, hp, List.map_cons, List.flatten_cons]
    rw [h] at hfl
    exact (List.append_eq_nil.mp hfl.symm).1

theorem removeFromPool_head (p : Pool) (c : Conn) (restL : List Conn)
    (hL : getAllConnections p = c :: restL)
    (h1 : ∀ kv ∈ p.connections, ∀ x ∈ kv.2, x.origin = kv.1)
    (h2 : (p.connections.map (fun kv => kv.1)).Nodup)
    (h3 : ∀ kv ∈ p.connections, kv.2 ≠ ([] : List Conn))
    (h4 : ((getAllConnections p).map Conn.id).Nodup) :
    getAllConnections (removeFromPool p c) = restL
    ∧ (∀ kv ∈ (removeFromPool p c).connections, ∀ x ∈ kv.2, x.origin = kv.1)
    ∧ ((removeFromPool p c).connections.map (fun kv => kv.1)).Nodup
    ∧ (∀ kv ∈ (removeFromPool p c).connections, kv.2 ≠ ([] : List Conn))
    ∧ (removeFromPool p c).semReleases = p.semReleases + 1 := by
  cases hp : p.connections with
  | nil =>
    exfalso
    have : getAllConnections p = [] := by rw [getAllConnections, hp]; rfl
    rw [hL] at this
    cases this
  | cons kv kvs =>
    have hkvmem : kv ∈ p.connections := by rw [hp]; exact List.mem_cons_self _ _
    have hkv2 : kv.2 ≠ [] := h3 kv hkvmem
    cases hb : kv.2 with
    | nil => exact absurd hb hkv2
    | cons chead b' =>
      have hflat : getAllConnections p = kv.2 ++ (kvs.map (fun kv => kv.2)).flatten := by
        rw [getAllConnections, hp, List.map_cons, List.flatten_cons]
      rw [hb, hL, List.cons_append] at hflat
      injection hflat with hc hrest
      subst hc
      have hcmem : c ∈ kv.2 := by rw [hb]; exact List.mem_cons_self _ _
      have hcorig : c.origin = kv.1 := h1 kv hkvmem c hcmem
      have hbucket : bucketFor p.connections c.origin = kv.2 := by
        rw [hp, bucketFor, if_pos hcorig.symm]
      have hconnIn : connIn (bucketFor p.connections c.origin) c.id = true := by
        rw [hbucket, hb, connIn_cons]
        simp
      have hidsrest : c.id ∉ restL.map Conn.id := by
        rw [hL, List.map_cons] at h4
        exact (List.nodup_cons.mp h4).1
      have hidsb : ∀ x ∈ b', x.id ≠ c.id := by
        intro x hx hxid
        apply hidsrest
        rw [hrest]
        exact hxid ▸ List.mem_map_of_mem Conn.id (List.mem_append_left _ hx)
      have hremove : removeConn (bucketFor p.connections c.origin) c.id = b' := by
        rw [hbucket, hb, removeConn_cons, if_pos rfl]
        exact removeConn_eq_self b' c.id hidsb
      have hkeys : kv.1 ∉ kvs.map (fun kv => kv.1) := by
        rw [hp, List.map_cons] at h2
        exact (List.nodup_cons.mp h2).1
      have hkeysnodup : (kvs.map (fun kv => kv.1)).Nodup := by
        rw [hp, List.map_cons] at h2
        exact (List.nodup_cons.mp h2).2
      have hnokey : hasKey kvs c.origin = false := by
        rw [← Bool.not_eq_true]
        intro habs
        exact hkeys (hcorig ▸ (hasKey_iff_mem_keys kvs c.origin).mp habs)
      have hkvsmem : ∀ kv' ∈ kvs, kv' ∈ p.connections := by
        intro kv' h'
        rw [hp]
        exact List.mem_cons_of_mem _ h'
      rw [removeFromPool]
      simp only [hconnIn, if_true, hremove]
      by_cases hb' : b' = []
      · rw [if_pos hb']
        have herase : eraseKey p.connections c.origin = kvs := by
          rw [hp, eraseKey, if_pos hcorig.symm, eraseKey_of_not_hasKey kvs c.origin hnokey]
        refine ⟨?_, ?_, ?_, ?_, trivial⟩
        · show ((eraseKey p.connections c.origin).map (fun kv => kv.2)).flatten = restL
          rw [herase, hrest, hb']
          rfl
        · intro kv' h' x hx
          rw [herase] at h'
          exact h1 kv' (hkvsmem kv' h') x hx
        · show ((eraseKey p.connections c.origin).map (fun kv => kv.1)).Nodup
          rw [herase]
          exact hkeysnodup
        · intro kv' h'
          rw [herase] at h'
          exact h3 kv' (hkvsmem kv' h')
      · rw [if_neg hb']
        have hset : setKey p.connections c.origin b' = (c.origin, b') :: kvs := by
          rw [hp, setKey, if_pos hcorig.symm, setKey_of_not_hasKey kvs c.origin b' hnokey]
        refine ⟨?_, ?_, ?_, ?_, trivial⟩
        · show ((setKey p.connections c.origin b').map (fun kv => kv.2)).flatten = restL
          rw [hset, List.map_cons, List.flatten_cons, hrest]
        · intro kv' h' x hx
          rw [hset] at h'
          rcases List.mem_cons.mp h' with he | ht
          · subst he
            have : x ∈ kv.2 := by rw [hb]; exact List.mem_cons_of_mem _ hx
            rw [h1 kv hkvmem x this, hcorig]
          · exact h1 kv' (hkvsmem kv' ht) x hx
        · show ((setKey p.connections c.origin b').map (fun kv => kv.1)).Nodup
          rw [hset, List.map_cons, List.nodup_cons]
          exact ⟨fun habs => hkeys (hcorig ▸ habs), hkeysnodup⟩
        · intro kv' h'
          rw [hset] at h'
          rcases List.mem_cons.mp h' with he | ht
          · subst he
            exact hb'
          · exact h3 kv' (hkvsmem kv' ht)

theorem foldl_remove_all (L : List Conn) (p : Pool)
    (hL : getAllConnections p = L)
    (h1 : ∀ kv ∈ p.connections, ∀ x ∈ kv.2, x.origin = kv.1)
    (h2 : (p.connections.map (fun kv => kv.1)).Nodup)
    (h3 : ∀ kv ∈ p.connections, kv.2 ≠ ([] : List Conn))
    (h4 : ((getAllConnections p).map Conn.id).Nodup) :
    (L.foldl removeFromPool p).connections = []
    ∧ (L.foldl removeFromPool p).semReleases = p.semReleases + L.length := by
  induction L generalizing p with
  | nil => exact ⟨connections_eq_nil_of_getAll p h3 hL, rfl⟩
  | cons c restL ih =>
    obtain ⟨hrest, h1', h2', h3', hsem⟩ := removeFromPool_head p c restL hL h1 h2 h3 h4
    have h4' : ((getAllConnections (removeFromPool p c)).map Conn.id).Nodup := by
      rw [hrest]
      rw [hL, List.map_cons] at h4
      exact (List.nodup_cons.mp h4).2
    have hfold := ih (removeFromPool p c) hrest h1' h2' h3' h4'
    rw [List.foldl_cons]
    refine ⟨hfold.1, ?_⟩
    rw [hfold.2, hsem, List.length_cons]
    omega

/-- C6: after pool `close()`, the connections map is empty, the semaphore
has been released once per connection pooled at the start, every such
connection has `close()` invoked on it, and the event trace performs all
removals before any close. -/
theorem closePool_spec (p : Pool) (hwf : WFPool p) :
    (closePool p).1.connections = []
    ∧ (closePool p).1.semReleases = p.semReleases + (getAllConnections p).length
    ∧ (closePool p).2.1 = (getAllConnections p).map closeConn
    ∧ (closePool p).2.2 =
        (getAllConnections p).map (fun c => PoolEvent.removed c.id)
          ++ (getAllConnections p).map (fun c => PoolEvent.closed c.id) := by
  obtain ⟨h1, h2, h3, h4⟩ := hwf
  have h := foldl_remove_all (getAllConnections p) p rfl h1 h2 h3 h4
  exact ⟨h.1, h.2, rfl, rfl⟩

/-- Witness for C6 at a concrete one-connection pool. -/
theorem closePool_spec_witness :
    (closePool exPool).1.connections = []
    ∧ (closePool exPool).1.semReleases
        = exPool.semReleases + (getAllConnections exPool).length := by
  have h := closePool_spec exPool ⟨by decide, by decide, by decide, by decide⟩
  exact ⟨h.1, h.2.1⟩

/-! The scan-loop invariant of `_get_connection_from_pool`. -/

theorem markAsReady_id (c : Conn) : (markAsReady c).id = c.id := by
  rw [markAsReady]
  by_cases h : c.state = ConnectionState.IDLE
  · rw [if_pos h]
  · rw [if_neg h]

theorem any_eq_false_of_all (l : List Conn) (p : Conn → Bool)
    (h : ∀ x ∈ l, p x = false) : l.any p = false := by
  induction l with
  | nil => rfl
  | cons x rest ih =>
    rw [List.any_cons, h x (List.mem_cons_self _ _),
      ih (fun y hy => h y (List.mem_cons_of_mem _ hy))]
    rfl

theorem all_eq_false_of_any (l : List Conn) (p : Conn → Bool)
    (h : l.any p = false) : ∀ x ∈ l, p x = false := by
  induction l with
  | nil => intro x hx; cases hx
  | cons y rest ih =>
    rw [List.any_cons, Bool.or_eq_false_iff] at h
    intro x hx
    rcases List.mem_cons.mp hx with he | ht
    · exact he ▸ h.1
    · exact ih h.2 x ht

theorem memPool_updateConn (q : Pool) (x y : Conn) :
    memPool (updateConn q x) y = memPool q y := by
  rw [memPool, memPool, updateConn]
  have hb : ∀ m : List (Origin × List Conn),
      bucketFor (m.map (fun kv =>
          (kv.1, kv.2.map (fun z => if z.id = x.id then x else z)))) y.origin
        = (bucketFor m y.origin).map (fun z => if z.id = x.id then x else z) := by
    intro m
    induction m with
    | nil => rfl
    | cons kv rest ih =>
      rw [List.map_cons, bucketFor, bucketFor]
      by_cases h : kv.1 = y.origin
      · rw [if_pos h, if_pos h]
      · rw [if_neg h, if_neg h, ih]
  show connIn
      (bucketFor (q.connections.map (fun kv =>
        (kv.1, kv.2.map (fun z => if z.id = x.id then x else z)))) y.origin) y.id
    = connIn (bucketFor q.connections y.origin) y.id
  rw [hb]
  generalize bucketFor q.connections y.origin = b
  induction b with
  | nil => rfl
  | cons z rest ih =>
    rw [List.map_cons, connIn_cons, connIn_cons, ih]
    by_cases hz : z.id = x.id
    · rw [if_pos hz, ← hz]
    · rw [if_neg hz]

theorem scanStep_eq (s : ScanState) (c : Conn) :
    scanStep s c =
      { seen_http11 := s.seen_http11 || c.is_http11,
        pending_connection :=
          if c.state = ConnectionState.PENDING then some c else s.pending_connection,
        reuse_connection :=
          if isReuseCandidate c = true then some c else s.reuse_connection,
        toClose := s.toClose ++ (if isDeadIdle c = true then [c] else []),
        pool := if isDeadIdle c = true then removeFromPool s.pool c else s.pool } := by
  simp only [scanStep]
  cases hst : c.state with
  | IDLE =>
    by_cases hr : c.socketReadable
    · by_cases hh : c.is_http11
      · simp [isDeadIdle, isReuseCandidate, hst, hr, hh]
      · simp [isDeadIdle, isReuseCandidate, hst, hr, hh]
    · by_cases hh : c.is_http11
      · simp [isDeadIdle, isReuseCandidate, hst, hr, hh]
      · simp [isDeadIdle, isReuseCandidate, hst, hr, hh]
  | ACTIVE =>
    by_cases h2 : c.is_http2
    · by_cases hh : c.is_http11
      · simp [isDeadIdle, isReuseCandidate, hst, h2, hh]
      · simp [isDeadIdle, isReuseCandidate, hst, h2, hh]
    · by_cases hh : c.is_http11
      · simp [isDeadIdle, isReuseCandidate, hst, h2, hh]
      · simp [isDeadIdle, isReuseCandidate, hst, h2, hh]
  | PENDING =>
    by_cases hh : c.is_http11
    · simp [isDeadIdle, isReuseCandidate, hst, hh]
    · simp [isDeadIdle, isReuseCandidate, hst, hh]
  | READY =>
    by_cases hh : c.is_http11
    · simp [isDeadIdle, isReuseCandidate, hst, hh]
    · simp [isDeadIdle, isReuseCandidate, hst, hh]
  | CLOSED =>
    by_cases hh : c.is_http11
    · simp [isDeadIdle, isReuseCandidate, hst, hh]
    · simp [isDeadIdle, isReuseCandidate, hst, hh]

theorem scanInv_step (l : List Conn) (s : ScanState) (c : Conn)
    (h : ScanInv l s) : ScanInv (l ++ [c]) (scanStep s c) := by
  obtain ⟨hseen, hreuse, hpnone, hpsome, hclose, hpool⟩ := h
  rw [scanStep_eq]
  refine ⟨?_, ?_, ?_, ?_, ?_, ?_⟩
  · show (s.seen_http11 || c.is_http11) = (l ++ [c]).any (fun x => x.is_http11)
    rw [List.any_append, hseen]
    simp
  · show ((if isReuseCandidate c = true then some c else s.reuse_connection) = none
        ∧ ∀ x ∈ l ++ [c], isReuseCandidate x = false)
      ∨ ∃ x ∈ l ++ [c], isReuseCandidate x = true
          ∧ (if isReuseCandidate c = true then some c else s.reuse_connection) = some x
    by_cases hc : isReuseCandidate c = true
    · right
      rw [if_pos hc]
      exact ⟨c, List.mem_append_right _ (List.mem_cons_self _ _), hc, rfl⟩
    · rw [if_neg hc]
      rcases hreuse with ⟨hn, hall⟩ | ⟨x, hx, hcand, hr⟩
      · left
        refine ⟨hn, ?_⟩
        intro y hy
        rcases List.mem_append.mp hy with hyl | hyc
        · exact hall y hyl
        · rw [List.mem_singleton] at hyc
          subst hyc
          simpa using hc
      · right
        exact ⟨x, List.mem_append_left _ hx, hcand, hr⟩
  · show (if c.state = ConnectionState.PENDING then some c else s.pending_connection) = none
      → ∀ x ∈ l ++ [c], x.state ≠ ConnectionState.PENDING
    intro hpn y hy
    by_cases hcp : c.state = ConnectionState.PENDING
    · rw [if_pos hcp] at hpn
      cases hpn
    · rw [if_neg hcp] at hpn
      rcases List.mem_append.mp hy with hyl | hyc
      · exact hpnone hpn y hyl
      · rw [List.mem_singleton] at hyc
        subst hyc
        exact hcp
  · show ∀ x, (if c.state = ConnectionState.PENDING then some c else s.pending_connection)
        = some x → x ∈ l ++ [c] ∧ x.state = ConnectionState.PENDING
    intro y hy
    by_cases hcp : c.state = ConnectionState.PENDING
    · rw [if_pos hcp] at hy
      injection hy with hy
      subst hy
      exact ⟨List.mem_append_right _ (List.mem_cons_self _ _), hcp⟩
    · rw [if_neg hcp] at hy
      obtain ⟨hm, hs⟩ := hpsome y hy
      exact ⟨List.mem_append_left _ hm, hs⟩
  · show (s.toClose ++ (if isDeadIdle c = true then [c] else []))
      = (l ++ [c]).filter isDeadIdle
    rw [List.filter_append, hclose]
    congr 1
    by_cases hd : isDeadIdle c = true
    · rw [if_pos hd]
      simp [List.filter_cons, hd]
    · rw [if_neg hd]
      have hd' : isDeadIdle c = false := by simpa using hd
      simp [List.filter_cons, hd']
  · show ∀ x ∈ l ++ [c], isDeadIdle x = true →
      memPool (if isDeadIdle c = true then removeFromPool s.pool c else s.pool) x = false
    intro y hy hyd
    by_cases hd : isDeadIdle c = true
    · rw [if_pos hd]
      rcases List.mem_append.mp hy with hyl | hyc
      · exact memPool_removeFromPool_false _ _ _ (hpool y hyl hyd)
      · rw [List.mem_singleton] at hyc
        subst hyc
        exact memPool_removeFromPool_self _ _
    · rw [if_neg hd]
      rcases List.mem_append.mp hy with hyl | hyc
      · exact hpool y hyl hyd
      · rw [List.mem_singleton] at hyc
        subst hyc
        exact absurd hyd hd

theorem scanInv_foldl (l l0 : List Conn) (s : ScanState) (h : ScanInv l0 s) :
    ScanInv (l0 ++ l) (l.foldl scanStep s) := by
  induction l generalizing l0 s with
  | nil => simpa using h
  | cons c rest ih =>
    rw [List.foldl_cons]
    have h2 := ih (l0 ++ [c]) (scanStep s c) (scanInv_step l0 s c h)
    simpa [List.append_assoc] using h2

theorem scanInv_initial (p : Pool) : ScanInv [] (initialScanState p) := by
  refine ⟨rfl, Or.inl ⟨rfl, ?_⟩, ?_, ?_, rfl, ?_⟩
  · intro c hc; cases hc
  · intro _ c hc; cases hc
  · intro c hc; exact Option.noConfusion hc
  · intro c hc; cases hc

theorem scanInv_bucket (p : Pool) (origin : Origin) :
    ScanInv (bucketFor p.connections origin)
      ((bucketFor p.connections origin).foldl scanStep (initialScanState p)) := by
  have h := scanInv_foldl (bucketFor p.connections origin) [] (initialScanState p)
    (scanInv_initial p)
  simpa using h

/-- C3: when `_get_connection_from_pool(origin)` finds a reuse candidate
(IDLE with non-readable socket, or ACTIVE HTTP/2) it returns that
candidate with `mark_as_ready()` applied and `expires_at` cleared; with no
candidate, a PENDING connection from the bucket is returned unchanged
exactly when HTTP/2 is enabled and no HTTP/1.1 connection was seen in the
bucket, and otherwise none is returned. -/
theorem getConnectionFromPool_reuse_spec (p : Pool) (origin : Origin) :
    ((∃ c ∈ bucketFor p.connections origin, isReuseCandidate c = true) →
        ∃ c ∈ bucketFor p.connections origin, isReuseCandidate c = true
          ∧ (getConnectionFromPool p origin).2.1
              = some { markAsReady c with expires_at := none })
    ∧ ((∀ c ∈ bucketFor p.connections origin, isReuseCandidate c = false) →
        p.http2 = true →
        (∀ x ∈ bucketFor p.connections origin, x.is_http11 = false) →
        (∃ x ∈ bucketFor p.connections origin, x.state = ConnectionState.PENDING) →
        ∃ c ∈ bucketFor p.connections origin,
          c.state = ConnectionState.PENDING
            ∧ (getConnectionFromPool p origin).2.1 = some c)
    ∧ ((∀ c ∈ bucketFor p.connections origin, isReuseCandidate c = false) →
        ¬ (p.http2 = true
            ∧ (∀ x ∈ bucketFor p.connections origin, x.is_http11 = false)
            ∧ (∃ x ∈ bucketFor p.connections origin, x.state = ConnectionState.PENDING)) →
        (getConnectionFromPool p origin).2.1 = none) := by
  obtain ⟨hseen, hreuse, hpnone, hpsome, hclose, hpool⟩ := scanInv_bucket p origin
  set S := (bucketFor p.connections origin).foldl scanStep (initialScanState p) with hS
  refine ⟨?_, ?_, ?_⟩
  · rintro ⟨c0, hc0, hcand0⟩
    rcases hreuse with ⟨hn, hall⟩ | ⟨x, hx, hxc, hr⟩
    · have := hall c0 hc0
      rw [hcand0] at this
      cases this
    · refine ⟨x, hx, hxc, ?_⟩
      rw [getConnectionFromPool, ← hS]
      simp only [scanFinish, hr]
  · rintro hno h2 hno11 ⟨x0, hx0, hx0p⟩
    have hrn : S.reuse_connection = none := by
      rcases hreuse with ⟨hn, _⟩ | ⟨x, hx, hxc, _⟩
      · exact hn
      · have := hno x hx
        rw [hxc] at this
        cases this
    have hps : S.pending_connection.isSome = true := by
      cases hp : S.pending_connection with
      | none => exact absurd hx0p (hpnone hp x0 hx0)
      | some y => rfl
    have hsn : S.seen_http11 = false := by
      rw [hseen]
      exact any_eq_false_of_all _ _ hno11
    obtain ⟨y, hy⟩ := Option.isSome_iff_exists.mp hps
    obtain ⟨hymem, hyp⟩ := hpsome y hy
    refine ⟨y, hymem, hyp, ?_⟩
    rw [getConnectionFromPool, ← hS]
    simp only [scanFinish, hrn]
    rw [h2, hps, hsn]
    simpa using hy
  · intro hno hncond
    have hrn : S.reuse_connection = none := by
      rcases hreuse with ⟨hn, _⟩ | ⟨x, hx, hxc, _⟩
      · exact hn
      · have := hno x hx
        rw [hxc] at this
        cases this
    rw [getConnectionFromPool, ← hS]
    simp only [scanFinish, hrn]
    have hguard : (p.http2 && S.pending_connection.isSome && !S.seen_http11) = false := by
      by_contra hg
      obtain ⟨hh2, hps, hseenf⟩ :
          p.http2 = true ∧ S.pending_connection.isSome = true ∧ S.seen_http11 = false := by
        simpa using hg
      apply hncond
      refine ⟨hh2, ?_, ?_⟩
      · rw [hseen] at hseenf
        exact all_eq_false_of_any _ _ hseenf
      · obtain ⟨y, hy⟩ := Option.isSome_iff_exists.mp hps
        obtain ⟨hymem, hyp⟩ := hpsome y hy
        exact ⟨y, hymem, hyp⟩
    rw [hguard]
    simp

/-- Witness for C3: a pool holding one IDLE non-readable connection hands
it out marked READY with its expiry cleared. -/
theorem getConnectionFromPool_reuse_witness :
    ∃ c ∈ bucketFor exPool.connections exOrigin, isReuseCandidate c = true
      ∧ (getConnectionFromPool exPool exOrigin).2.1
          = some { markAsReady c with expires_at := none } :=
  (getConnectionFromPool_reuse_spec exPool exOrigin).1
    ⟨exConnIdle, by decide, by decide⟩

/-- C5: every connection in the origin's bucket that is IDLE with a
readable socket at the start of `_get_connection_from_pool` is removed
from the pool, closed, and is never the returned connection. -/
theorem getConnectionFromPool_dead_peer (p : Pool) (origin : Origin)
    (hids : ((bucketFor p.connections origin).map Conn.id).Nodup) :
    ∀ c ∈ bucketFor p.connections origin,
      c.state = ConnectionState.IDLE → c.socketReadable = true →
        memPool (getConnectionFromPool p origin).1 c = false
        ∧ closeConn c ∈ (getConnectionFromPool p origin).2.2
        ∧ ∀ rc, (getConnectionFromPool p origin).2.1 = some rc → rc.id ≠ c.id := by
  obtain ⟨hseen, hreuse, hpnone, hpsome, hclose, hpool⟩ := scanInv_bucket p origin
  set S := (bucketFor p.connections origin).foldl scanStep (initialScanState p) with hS
  intro c hc hcs hcr
  have hdead : isDeadIdle c = true := by simp [isDeadIdle, hcs, hcr]
  have hcnot : isReuseCandidate c = false := by simp [isReuseCandidate, hcs, hcr]
  have hmem : memPool S.pool c = false := hpool c hc hdead
  have hcl : c ∈ S.toClose := by
    rw [hclose]
    exact List.mem_filter.mpr ⟨hc, hdead⟩
  cases hr : S.reuse_connection with
  | some ru =>
    rcases hreuse with ⟨hn, _⟩ | ⟨x, hx, hxc, hrx⟩
    · rw [hn] at hr
      cases hr
    · have hxr : x = ru := by
        have := hrx.symm.trans hr
        injection this
      subst hxr
      refine ⟨?_, ?_, ?_⟩
      · rw [getConnectionFromPool, ← hS]
        simp only [scanFinish, hr]
        rw [memPool_updateConn]
        exact hmem
      · rw [getConnectionFromPool, ← hS]
        simp only [scanFinish, hr]
        exact List.mem_map_of_mem closeConn hcl
      · intro rc hrc
        rw [getConnectionFromPool, ← hS] at hrc
        simp only [scanFinish, hr] at hrc
        injection hrc with hrc
        intro hid
        have hrcid : rc.id = x.id := by
          rw [← hrc]
          exact markAsReady_id x
        have hxc_id : x.id = c.id := by rw [← hrcid, hid]
        have : x = c := List.inj_on_of_nodup_map hids hx hc hxc_id
        rw [this, hcnot] at hxc
        cases hxc
  | none =>
    refine ⟨?_, ?_, ?_⟩
    · rw [getConnectionFromPool, ← hS]
      simp only [scanFinish, hr]
      by_cases hg : (p.http2 && S.pending_connection.isSome && !S.seen_http11) = true
      · rw [if_pos hg]
        exact hmem
      · rw [if_neg hg]
        exact hmem
    · rw [getConnectionFromPool, ← hS]
      simp only [scanFinish, hr]
      by_cases hg : (p.http2 && S.pending_connection.isSome && !S.seen_http11) = true
      · rw [if_pos hg]
        exact List.mem_map_of_mem closeConn hcl
      · rw [if_neg hg]
        exact List.mem_map_of_mem closeConn hcl
    · intro rc hrc
      rw [getConnectionFromPool, ← hS] at hrc
      simp only [scanFinish, hr] at hrc
      by_cases hg : (p.http2 && S.pending_connection.isSome && !S.seen_http11) = true
      · rw [if_pos hg] at hrc
        obtain ⟨hrmem, hrp⟩ := hpsome rc hrc
        intro hid
        have : rc = c := List.inj_on_of_nodup_map hids hrmem hc hid
        rw [this, hcs] at hrp
        cases hrp
      · rw [if_neg hg] at hrc
        cases hrc

/-- Witness for C5: a dead IDLE connection is evicted and closed. -/
theorem getConnectionFromPool_dead_witness :
    memPool (getConnectionFromPool exPoolDead exOrigin).1 exConnDead = false
    ∧ closeConn exConnDead ∈ (getConnectionFromPool exPoolDead exOrigin).2.2 := by
  have h := getConnectionFromPool_dead_peer exPoolDead exOrigin (by decide)
    exConnDead (by decide) rfl rfl
  exact ⟨h.1, h.2.1⟩

/-- C8: `SyncConnectionPool.request` raises `UnsupportedProtocol` for a
scheme other than http/https and `LocalProtocolError` for an empty host,
in both cases before any pool state is mutated (the pool state carried by
the error is exactly the input pool). -/
theorem poolRequest_validation_spec (p : Pool) (now : ℚ) (url : URL)
    (orc : Nat → ConnResult) (base fuel : Nat) :
    (url.scheme ≠ "http" → url.scheme ≠ "https" →
        poolRequest p now url orc base fuel
          = Except.error (PoolError.unsupportedProtocol url.scheme, p))
    ∧ ((url.scheme = "http" ∨ url.scheme = "https") → url.host = "" →
        poolRequest p now url orc base fuel
          = Except.error (PoolError.localProtocolError "Missing hostname in URL.", p)) := by
  constructor
  · intro h1 h2
    rw [poolRequest, if_pos ⟨h1, h2⟩]
  · intro hs hh
    have hcond : ¬ (url.scheme ≠ "http" ∧ url.scheme ≠ "https") := by
      rcases hs with h | h
      · intro hc
        exact hc.1 h
      · intro hc
        exact hc.2 h
    rw [poolRequest, if_neg hcond, if_pos hh]

/-- Witness for C8: an `ftp` URL is rejected with the pool untouched. -/
theorem poolRequest_validation_witness :
    poolRequest exPoolEmpty 0 exUrlFtp (fun _ => ConnResult.newConnectionRequired) 0 1
      = Except.error (PoolError.unsupportedProtocol "ftp", exPoolEmpty) :=
  (poolRequest_validation_spec exPoolEmpty 0 exUrlFtp
    (fun _ => ConnResult.newConnectionRequired) 0 1).1 (by decide) (by decide)

/-- C9: `merge_headers` keeps the default entries whose key does not occur
case-insensitively among the override keys, in order, followed by all
override entries in order. -/
theorem merge_headers_spec (d o : List (String × String)) :
    merge_headers d o
      = d.filter (fun kv =>
          decide (∀ k ∈ o.map Prod.fst, bytesLower kv.1 ≠ bytesLower k)) ++ o := by
  rw [merge_headers]
  congr 1
  apply List.filter_congr
  intro kv _
  by_cases h : ∀ k ∈ o.map Prod.fst, bytesLower kv.1 ≠ bytesLower k
  · rw [decide_eq_true h]
    have hnm : bytesLower kv.1 ∉ o.map (fun kv => bytesLower kv.1) := by
      intro hmem
      rcases List.mem_map.mp hmem with ⟨kv', hkv', heq⟩
      exact h kv'.1 (List.mem_map_of_mem Prod.fst hkv') heq.symm
    have hcf : (o.map (fun kv => bytesLower kv.1)).contains (bytesLower kv.1) = false := by
      rw [← Bool.not_eq_true]
      intro hct
      exact hnm (List.elem_iff.mp hct)
    rw [hcf]
    rfl
  · rw [decide_eq_false h]
    push_neg at h
    obtain ⟨k, hk, heq⟩ := h
    rcases List.mem_map.mp hk with ⟨kv', hkv', rfl⟩
    have hct : (o.map (fun kv => bytesLower kv.1)).contains (bytesLower kv.1) = true := by
      apply List.elem_iff.mpr
      rw [heq]
      exact List.mem_map_of_mem (fun kv => bytesLower kv.1) hkv'
    rw [hct]
    rfl

/-! Error shapes of the proxy request paths. -/

theorem addToPool_error (p : Pool) (c : Conn) (e : PoolError)
    (h : addToPool p c = Except.error e) : e = PoolError.poolTimeout := by
  rw [addToPool] at h
  cases hm : p.maxConnections with
  | none =>
    simp only [semaphoreAcquire, hm, Except.map] at h
    cases h
  | some m =>
    simp only [semaphoreAcquire, hm] at h
    by_cases hlt : p.semAcquires - p.semReleases < m
    · rw [if_pos hlt] at h
      simp only [Except.map] at h
      cases h
    · rw [if_neg hlt] at h
      simp only [Except.map] at h
      injection h with h
      exact h.symm

theorem finalRequest_error (p : Pool) (c : Conn) (r : ConnResult) (e : PoolError)
    (q : Pool) (h : finalRequest p c r = Except.error (e, q)) :
    isValidationError e = false := by
  cases r with
  | success s =>
    rw [finalRequest] at h
    cases h
  | newConnectionRequired =>
    rw [finalRequest] at h
    injection h with h
    rw [Prod.mk.injEq] at h
    rw [← h.1]
    rfl
  | failure t =>
    rw [finalRequest] at h
    injection h with h
    rw [Prod.mk.injEq] at h
    rw [← h.1]
    rfl

theorem forwardRequest_no_validation (cfg : ProxyCfg) (p : Pool) (url : URL)
    (headers : List (String × String))
    (orc : String → List (String × String) → ConnResult) (freshId : Nat)
    (e : PoolError) (q : Pool)
    (h : forwardRequest cfg p url headers orc freshId = Except.error (e, q)) :
    isValidationError e = false := by
  rw [forwardRequest] at h
  cases hg : (getConnectionFromPool p cfg.proxy_origin).2.1 with
  | some c =>
    simp only [hg] at h
    exact finalRequest_error _ _ _ _ _ h
  | none =>
    simp only [hg] at h
    cases ha : addToPool (getConnectionFromPool p cfg.proxy_origin).1
        (newConnection freshId cfg.proxy_origin) with
    | error e' =>
      simp only [ha, Except.map] at h
      injection h with h
      rw [Prod.mk.injEq] at h
      rw [← h.1, addToPool_error _ _ _ ha]
      rfl
    | ok p2 =>
      simp only [ha, Except.map] at h
      exact finalRequest_error _ _ _ _ _ h

theorem tunnelRequest_no_validation (cfg : ProxyCfg) (p : Pool) (url : URL)
    (orc : TunnelOracle) (freshId : Nat) (e : PoolError) (q : Pool)
    (h : (tunnelRequest cfg p url orc freshId).result = Except.error (e, q)) :
    isValidationError e = false := by
  rw [tunnelRequest] at h
  cases hg : (getConnectionFromPool p (url_to_origin url)).2.1 with
  | some c =>
    simp only [hg] at h
    exact finalRequest_error _ _ _ _ _ h
  | none =>
    simp only [hg] at h
    cases hh : tunnelHandshake cfg url orc with
    | error exc =>
      simp only [hh] at h
      injection h with h
      rw [Prod.mk.injEq] at h
      rw [← h.1]
      rfl
    | ok u =>
      simp only [hh] at h
      cases ha : addToPool (getConnectionFromPool p (url_to_origin url)).1
          (newConnection freshId (url_to_origin url)) with
      | error e' =>
        simp only [ha] at h
        injection h with h
        rw [Prod.mk.injEq] at h
        rw [← h.1, addToPool_error _ _ _ ha]
        rfl
      | ok p2 =>
        simp only [ha] at h
        exact finalRequest_error _ _ _ _ _ h

/-- C10: `SyncHTTPProxy.request` performs no URL validation: even for a
URL with a non-http(s) scheme or an empty host it never raises
`UnsupportedProtocol` or `LocalProtocolError`, and the request is
dispatched to the forward or tunnel path according only to `proxy_mode`
and whether the scheme equals `http`. -/
theorem proxyRequest_no_validation (cfg : ProxyCfg) (p : Pool) (now : ℚ) (url : URL)
    (headers : List (String × String)) (orc : ProxyOracles) (freshId : Nat)
    (_hbad : (url.scheme ≠ "http" ∧ url.scheme ≠ "https") ∨ url.host = "") :
    (proxyRequest cfg p now url headers orc freshId).1 = proxyDispatch cfg url
    ∧ ∀ e q, (proxyRequest cfg p now url headers orc freshId).2 = Except.error (e, q) →
        (∀ s, e ≠ PoolError.unsupportedProtocol s)
        ∧ (∀ s, e ≠ PoolError.localProtocolError s) := by
  constructor
  · rw [proxyRequest, proxyDispatch]
    by_cases hc : (cfg.proxy_mode = ProxyMode.DEFAULT ∧ url.scheme = "http")
        ∨ cfg.proxy_mode = ProxyMode.FORWARD_ONLY
    · rw [if_pos hc, if_pos hc]
    · rw [if_neg hc, if_neg hc]
  · intro e q h
    have hv : isValidationError e = false := by
      rw [proxyRequest] at h
      by_cases hc : (cfg.proxy_mode = ProxyMode.DEFAULT ∧ url.scheme = "http")
          ∨ cfg.proxy_mode = ProxyMode.FORWARD_ONLY
      · rw [if_pos hc] at h
        exact forwardRequest_no_validation _ _ _ _ _ _ _ _ h
      · rw [if_neg hc] at h
        exact tunnelRequest_no_validation _ _ _ _ _ _ _ h
    constructor
    · intro s hs
      rw [hs] at hv
      cases hv
    · intro s hs
      rw [hs] at hv
      cases hv

/-- Witness for C10: a TUNNEL_ONLY proxy dispatches an `ftp` URL to the
tunnel path and the resulting error is a `ProxyError`, not a validation
error. -/
theorem proxyRequest_no_validation_witness :
    (proxyRequest exProxyCfg exPoolEmpty 0 exUrlFtp [] exProxyOracles 0).1
        = proxyDispatch exProxyCfg exUrlFtp
    ∧ (∀ s, PoolError.proxyError (PyExc.external "boom")
          ≠ PoolError.unsupportedProtocol s)
    ∧ (∀ s, PoolError.proxyError (PyExc.external "boom")
          ≠ PoolError.localProtocolError s) := by
  have h := proxyRequest_no_validation exProxyCfg exPoolEmpty 0 exUrlFtp [] exProxyOracles 0
    (Or.inl ⟨by decide, by decide⟩)
  refine ⟨h.1, ?_, ?_⟩
  · exact (h.2 (PoolError.proxyError (PyExc.external "boom")) exPoolEmpty (by decide)).1
  · exact (h.2 (PoolError.proxyError (PyExc.external "boom")) exPoolEmpty (by decide)).2

/-- C7: in the tunnel path with no pooled connection for the target
origin, a CONNECT status outside [200, 299] closes the auxiliary proxy
connection and raises a `ProxyError` whose message is `"<status>
<reason>"`; and any exception during the CONNECT handshake (including the
TLS upgrade) closes the auxiliary connection and raises a `ProxyError`
wrapping that exception. -/
theorem tunnelRequest_connect_failure_spec (cfg : ProxyCfg) (p : Pool) (url : URL)
    (orc : TunnelOracle) (freshId : Nat)
    (hnone : (getConnectionFromPool p (url_to_origin url)).2.1 = none) :
    (∀ status, orc.connect (tunnelConnectTarget url) (tunnelConnectHeaders cfg url)
          = Except.ok status →
        (status < 200 ∨ status > 299) →
        (tunnelRequest cfg p url orc freshId).auxClosed = true
        ∧ ∃ e, (tunnelRequest cfg p url orc freshId).result
              = Except.error (PoolError.proxyError e,
                  (getConnectionFromPool p (url_to_origin url)).1)
            ∧ excMessage e
                = toString status ++ " " ++ get_reason_phrase orc.phrase status)
    ∧ (∀ exc, orc.connect (tunnelConnectTarget url) (tunnelConnectHeaders cfg url)
          = Except.error exc →
        (tunnelRequest cfg p url orc freshId).auxClosed = true
        ∧ (tunnelRequest cfg p url orc freshId).result
            = Except.error (PoolError.proxyError exc,
                (getConnectionFromPool p (url_to_origin url)).1))
    ∧ (∀ status exc, orc.connect (tunnelConnectTarget url) (tunnelConnectHeaders cfg url)
          = Except.ok status →
        ¬ (status < 200 ∨ status > 299) →
        url.scheme = "https" →
        orc.tls = Except.error exc →
        (tunnelRequest cfg p url orc freshId).auxClosed = true
        ∧ (tunnelRequest cfg p url orc freshId).result
            = Except.error (PoolError.proxyError exc,
                (getConnectionFromPool p (url_to_origin url)).1)) := by
  refine ⟨?_, ?_, ?_⟩
  · intro status hconn hrange
    have hh : tunnelHandshake cfg url orc
        = Except.error (PyExc.proxyError (PyExc.str
            (toString status ++ " " ++ get_reason_phrase orc.phrase status))) := by
      simp only [tunnelHandshake, hconn]
      rw [if_pos hrange]
    rw [tunnelRequest]
    simp only [hnone, hh]
    exact ⟨by trivial,
      PyExc.proxyError (PyExc.str (toString status ++ " " ++ get_reason_phrase orc.phrase status)),
      by trivial, by trivial⟩
  · intro exc hconn
    have hh : tunnelHandshake cfg url orc = Except.error exc := by
      simp only [tunnelHandshake, hconn]
    rw [tunnelRequest]
    simp only [hnone, hh]
    exact ⟨by trivial, by trivial⟩
  · intro status exc hconn hrange hscheme htls
    have hsch : (url_to_origin url).1 = "https" := hscheme
    have hh : tunnelHandshake cfg url orc = Except.error exc := by
      simp only [tunnelHandshake, hconn]
      rw [if_neg hrange, if_pos hsch, htls]
    rw [tunnelRequest]
    simp only [hnone, hh]
    exact ⟨by trivial, by trivial⟩

/-- Witness for C7: a CONNECT request that raises closes the auxiliary
connection and surfaces a wrapping `ProxyError`. -/
theorem tunnelRequest_connect_failure_witness :
    (tunnelRequest exProxyCfg exPoolEmpty exUrlHttps exTunnelOracleFail 0).auxClosed = true
    ∧ (tunnelRequest exProxyCfg exPoolEmpty exUrlHttps exTunnelOracleFail 0).result
        = Except.error (PoolError.proxyError (PyExc.external "boom"),
            (getConnectionFromPool exPoolEmpty (url_to_origin exUrlHttps)).1) :=
  (tunnelRequest_connect_failure_spec exProxyCfg exPoolEmpty exUrlHttps
    exTunnelOracleFail 0 (by decide)).2.1 (PyExc.external "boom") rfl
